import Mathlib

/-!
Shallow embedding of the partial-update document builder of the `mongoL`
repository (`mongo/utils.go`, function `BuildUpdateSet`) together with the
`updated_at` prologue that `Repository.UpdateOne` and `Repository.UpdateMany`
run over a caller-supplied update document (`mongo/operations.go`).

Go runtime values reachable through `reflect` are modelled by the inductive
type `Value`; a struct is a list of fields, each carrying its declared Go
identifier, its exported flag (reflect's `CanInterface`), the string returned
by `Tag.Get "bson"` (the empty string when the tag is absent), and the field's
current value.  `bson.M` documents are modelled by association lists with
map-style (replace-or-append) insertion.  Go's `==` on strings is plain
string equality, written here as propositional equality with its decidability
instance.
-/

namespace MongoL

mutual

/-- A Go runtime value, as inspected by `reflect` in `BuildUpdateSet`.
`vNull` is an untyped nil interface value held in a field, `vPtr` a pointer
(with `none` for a nil pointer), `vDoc` a `bson.M`/map value, and
`vStruct` a struct value given by its list of fields in declaration order. -/
inductive Value where
  | vNull : Value
  | vBool : Bool → Value
  | vInt : Int → Value
  | vStr : String → Value
  | vTime : Nat → Value
  | vOid : Nat → Value
  | vArr : List Value → Value
  | vDoc : List (String × Value) → Value
  | vPtr : Option Value → Value
  | vStruct : List GoField → Value

/-- One struct field: declared Go identifier, exported flag, the string
`Tag.Get "bson"` returns (with `""` when the tag is absent), and the
field's current value. -/
inductive GoField where
  | mk (name : String) (exported : Bool) (tag : String) (value : Value)

end

namespace GoField

/-- The declared Go identifier of the field. -/
def name : GoField → String
  | .mk n _ _ _ => n

/-- Whether the field is exported (`reflect.Value.CanInterface`). -/
def exported : GoField → Bool
  | .mk _ e _ _ => e

/-- The bson tag string of the field (`""` when absent). -/
def tag : GoField → String
  | .mk _ _ t _ => t

/-- The current value of the field. -/
def value : GoField → Value
  | .mk _ _ _ v => v

end GoField

mutual

/-- `reflect.Value.IsZero`: a value is zero when it equals the default value
of its type; a struct is zero when all its fields are zero. -/
def isZero : Value → Bool
  | .vNull => true
  | .vBool b => b == false
  | .vInt n => n == 0
  | .vStr s => s == ""
  | .vTime t => t == 0
  | .vOid n => n == 0
  | .vArr xs => xs.isEmpty
  | .vDoc fs => fs.isEmpty
  | .vPtr p => p.isNone
  | .vStruct fs => fieldsZero fs

/-- All fields of a struct are zero-valued. -/
def fieldsZero : List GoField → Bool
  | [] => true
  | .mk _ _ _ v :: rest => isZero v && fieldsZero rest

end

/-- Lookup in a `bson.M` document modelled as an association list. -/
def mLookup : List (String × Value) → String → Option Value
  | [], _ => none
  | (k, v) :: rest, key => if k = key then some v else mLookup rest key

/-- Map-style insertion into a `bson.M` document: replace the binding of the
key when present, append it otherwise. -/
def mInsert : List (String × Value) → String → Value → List (String × Value)
  | [], k, v => [(k, v)]
  | (k1, v1) :: rest, k, v =>
    if k1 = k then (k, v) :: rest else (k1, v1) :: mInsert rest k v

/-- `contains` from `mongo/utils.go`: whether a string slice holds an item. -/
def contains : List String → String → Bool
  | [], _ => false
  | s :: rest, item => if s = item then true else contains rest item

/-- `strings.Split(bsonTag, ",")`: split the tag at every comma.  Like the
Go function, splitting the empty string yields `[""]` and a trailing comma
yields a trailing empty part. -/
def splitTag (tag : String) : List String :=
  (List.splitOn ',' tag.data).map (fun cs => String.mk cs)

/-- `strings.ToLower` on a Go identifier (ASCII letters). -/
def lowerName (s : String) : String :=
  String.mk (s.data.map Char.toLower)

/-- The primary external name of a bson tag: the part before the first comma
(`tagParts[0]` after `strings.Split(bsonTag, ",")`). -/
def primaryName (tag : String) : String :=
  match splitTag tag with
  | [] => ""
  | p :: _ => p

/-- Name resolution of `BuildUpdateSet` (utils.go lines 76-81): the primary
tag name, or the lower-cased field identifier when the primary name is
empty. -/
def resolvedName (goName tag : String) : String :=
  if primaryName tag = "" then lowerName goName else primaryName tag

/-- The omitempty skip condition of `BuildUpdateSet` (utils.go line 84):
the tag has more than one comma-separated part, the parts after the first
contain `omitempty`, and the field value is zero. -/
def OmitSkip (tag : String) (v : Value) : Prop :=
  (splitTag tag).length > 1 ∧ contains ((splitTag tag).drop 1) "omitempty" = true
    ∧ isZero v = true

/-- The modifier list of the tag contains `omitempty`
(spec: "the modifier set contains `omitempty`"). -/
def HasOmitempty (tag : String) : Prop :=
  (splitTag tag).length > 1 ∧ contains ((splitTag tag).drop 1) "omitempty" = true

instance instDecidableOmitSkip (t : String) (v : Value) : Decidable (OmitSkip t v) :=
  inferInstanceAs (Decidable (_ ∧ _ ∧ _))

instance instDecidableHasOmitempty (t : String) : Decidable (HasOmitempty t) :=
  inferInstanceAs (Decidable (_ ∧ _))

/-- The field loop of `BuildUpdateSet` (utils.go lines 61-94), accumulating
`setFields`.  Each step skips unexported fields, absent or `-` tags,
omitempty fields with zero value, and fields whose resolved name is `_id`;
otherwise it stores the resolved name and value. -/
def buildSetLoop : List GoField → List (String × Value) → List (String × Value)
  | [], acc => acc
  | f :: rest, acc =>
    if f.exported = false then buildSetLoop rest acc
    else if f.tag = "" ∨ f.tag = "-" then buildSetLoop rest acc
    else if OmitSkip f.tag f.value then buildSetLoop rest acc
    else if resolvedName f.name f.tag = "_id" then buildSetLoop rest acc
    else buildSetLoop rest (mInsert acc (resolvedName f.name f.tag) f.value)

/-- The single pointer dereference at the top of `BuildUpdateSet`
(utils.go lines 47-53): the input as a Go interface value (`none` is the
untyped nil interface), dereferenced once when it is a pointer; `none` on
the right means reflect's invalid value. -/
def derefValue : Option Value → Option Value
  | none => none
  | some (.vPtr p) => p
  | some v => some v

/-- `BuildUpdateSet` from `mongo/utils.go`: build the `$set` part of an
update operation for a struct (or pointer to struct) input.  The result is
the `bson.M` update document. -/
def BuildUpdateSet (data : Option Value) : List (String × Value) :=
  match derefValue data with
  | some (.vStruct fs) =>
    if (buildSetLoop fs []).length > 0 then [("$set", .vDoc (buildSetLoop fs []))]
    else []
  | _ => []

/-- The `$set` sub-document of an update document, the empty document when
there is none or when the stored value is not a document. -/
def msetOf (update : List (String × Value)) : List (String × Value) :=
  match mLookup update "$set" with
  | some (.vDoc s) => s
  | _ => []

/-- The `updated_at` prologue of `Repository.UpdateOne` (operations.go
lines 126-131): create the `$set` entry when it is missing or nil, then
store `updated_at ↦ now` inside it.  `none` models the runtime panic of
the `update["$set"].(bson.M)` type assertion when the stored value is not
a document. -/
def UpdateOnePrep (update : List (String × Value)) (now : Nat) :
    Option (List (String × Value)) :=
  let u := match mLookup update "$set" with
    | none => mInsert update "$set" (.vDoc [])
    | some .vNull => mInsert update "$set" (.vDoc [])
    | some _ => update
  match mLookup u "$set" with
  | some (.vDoc s) =>
    some (mInsert u "$set" (.vDoc (mInsert s "updated_at" (.vTime now))))
  | _ => none

/-- The `updated_at` prologue of `Repository.UpdateMany` (operations.go
lines 147-152), identical to the one of `UpdateOne`. -/
def UpdateManyPrep (update : List (String × Value)) (now : Nat) :
    Option (List (String × Value)) :=
  let u := match mLookup update "$set" with
    | none => mInsert update "$set" (.vDoc [])
    | some .vNull => mInsert update "$set" (.vDoc [])
    | some _ => update
  match mLookup u "$set" with
  | some (.vDoc s) =>
    some (mInsert u "$set" (.vDoc (mInsert s "updated_at" (.vTime now))))
  | _ => none

/-- The combined inclusion condition of one iteration of the field loop:
the field is exported, its tag is neither absent nor `-`, it is not an
omitempty field with a zero value, and its resolved name is not `_id`. -/
def IncludeField (f : GoField) : Prop :=
  f.exported = true ∧ ¬(f.tag = "" ∨ f.tag = "-") ∧ ¬OmitSkip f.tag f.value
    ∧ resolvedName f.name f.tag ≠ "_id"

instance instDecidableIncludeField (f : GoField) : Decidable (IncludeField f) :=
  inferInstanceAs (Decidable (_ ∧ _ ∧ _ ∧ _))

/-- The resolved external name of a field. -/
def entryName (f : GoField) : String :=
  resolvedName f.name f.tag

/-- The record of the spec's concrete scenario: a non-zero identity field
tagged `_id`, a name field `"alice"` tagged `username`, and a bio field
tagged `profile.bio,omitempty`. -/
def sampleRecord (bio : String) : List GoField :=
  [ .mk "ID" true "_id" (.vOid 5)
  , .mk "Name" true "username" (.vStr "alice")
  , .mk "Bio" true "profile.bio,omitempty" (.vStr bio) ]

/-- The `BaseDocument` struct of `mongo/document.go` with the given field
values. -/
def mkBaseDocument (id createdAt updatedAt : Value) : List GoField :=
  [ .mk "ID" true "_id,omitempty" id
  , .mk "CreatedAt" true "created_at" createdAt
  , .mk "UpdatedAt" true "updated_at" updatedAt ]

/-- The anonymous `Profile` struct nested inside `User`
(`mongo/document.go`). -/
def mkProfile (firstName lastName avatar bio : String) : List GoField :=
  [ .mk "FirstName" true "first_name" (.vStr firstName)
  , .mk "LastName" true "last_name" (.vStr lastName)
  , .mk "Avatar" true "avatar" (.vStr avatar)
  , .mk "Bio" true "bio" (.vStr bio) ]

/-- The `User` struct of `mongo/document.go`: an embedded `BaseDocument`
tagged `,inline`, then the user fields with their bson tags. -/
def mkUser (base : List GoField) (username email password status : String)
    (profile : List GoField) : List GoField :=
  [ .mk "BaseDocument" true ",inline" (.vStruct base)
  , .mk "Username" true "username" (.vStr username)
  , .mk "Email" true "email" (.vStr email)
  , .mk "Password" true "password" (.vStr password)
  , .mk "Status" true "status" (.vStr status)
  , .mk "Profile" true "profile" (.vStruct profile) ]

/-! ### Helper lemmas about documents and the field loop -/

theorem mLookup_mInsert (m : List (String × Value)) (k key : String) (v : Value) :
    mLookup (mInsert m k v) key = if key = k then some v else mLookup m key := by
  induction m with
  | nil =>
    by_cases h : key = k
    · subst h; simp [mInsert, mLookup]
    · simp [mInsert, mLookup, h, Ne.symm h]
  | cons p rest ih =>
    rcases p with ⟨k1, v1⟩
    by_cases h1 : k1 = k
    · subst h1
      by_cases h2 : key = k1
      · subst h2; simp [mInsert, mLookup]
      · simp [mInsert, mLookup, h2, Ne.symm h2]
    · by_cases h2 : k1 = key
      · subst h2
        simp [mInsert, mLookup, h1, Ne.symm h1]
      · by_cases h3 : key = k
        · subst h3
          simp [mInsert, mLookup, h1, h2, Ne.symm h1, Ne.symm h2, ih]
        · simp [mInsert, mLookup, h1, h2, h3, ih]

theorem mInsert_ne_nil (m : List (String × Value)) (k : String) (v : Value) :
    mInsert m k v ≠ [] := by
  cases m with
  | nil => simp [mInsert]
  | cons p rest =>
    rcases p with ⟨k1, v1⟩
    by_cases h : k1 = k <;> simp [mInsert, h]

theorem mInsert_of_fresh (m : List (String × Value)) (k : String) (v : Value)
    (h : ∀ p ∈ m, p.1 ≠ k) : mInsert m k v = m ++ [(k, v)] := by
  induction m with
  | nil => rfl
  | cons p rest ih =>
    rcases p with ⟨k1, v1⟩
    have hk1 : k1 ≠ k := h (k1, v1) (List.mem_cons_self _ _)
    simp only [mInsert, if_neg hk1, List.cons_append, List.cons.injEq, true_and]
    exact ih fun p hp => h p (List.mem_cons_of_mem _ hp)

theorem buildSetLoop_cons (f : GoField) (rest : List GoField)
    (acc : List (String × Value)) :
    buildSetLoop (f :: rest) acc =
      if IncludeField f then
        buildSetLoop rest (mInsert acc (resolvedName f.name f.tag) f.value)
      else buildSetLoop rest acc := by
  by_cases h1 : f.exported = false <;>
    by_cases h2 : f.tag = "" ∨ f.tag = "-" <;>
      by_cases h3 : OmitSkip f.tag f.value <;>
        by_cases h4 : resolvedName f.name f.tag = "_id" <;>
          simp [buildSetLoop, IncludeField, h1, h2, h3, h4,
            Bool.not_eq_false] at *

theorem includeField_iff (f : GoField) :
    IncludeField f ↔
      f.exported = true ∧ f.tag ≠ "" ∧ f.tag ≠ "-" ∧
        ¬(HasOmitempty f.tag ∧ isZero f.value = true) ∧
        resolvedName f.name f.tag ≠ "_id" := by
  have homit : OmitSkip f.tag f.value ↔ HasOmitempty f.tag ∧ isZero f.value = true := by
    unfold OmitSkip HasOmitempty
    tauto
  unfold IncludeField
  rw [homit, not_or]
  tauto

theorem includeField_ne_id {f : GoField} (h : IncludeField f) :
    resolvedName f.name f.tag ≠ "_id" :=
  h.2.2.2

theorem mLookup_id_buildSetLoop (fs : List GoField) :
    ∀ acc, mLookup acc "_id" = none →
      mLookup (buildSetLoop fs acc) "_id" = none := by
  induction fs with
  | nil => intro acc h; simpa [buildSetLoop] using h
  | cons f rest ih =>
    intro acc h
    rw [buildSetLoop_cons]
    by_cases hinc : IncludeField f
    · rw [if_pos hinc]
      apply ih
      rw [mLookup_mInsert, if_neg (fun he => includeField_ne_id hinc he.symm)]
      exact h
    · rw [if_neg hinc]
      exact ih acc h

theorem msetOf_buildUpdateSet (data : Option Value) (fs : List GoField)
    (hd : derefValue data = some (.vStruct fs)) :
    msetOf (BuildUpdateSet data) = buildSetLoop fs [] := by
  unfold BuildUpdateSet
  rw [hd]
  show msetOf (if (buildSetLoop fs []).length > 0 then
      [("$set", Value.vDoc (buildSetLoop fs []))] else []) = buildSetLoop fs []
  by_cases h : (buildSetLoop fs []).length > 0
  · rw [if_pos h]
    simp [msetOf, mLookup]
  · rw [if_neg h]
    have hnil : buildSetLoop fs [] = [] :=
      List.length_eq_zero.mp (Nat.eq_zero_of_not_pos h)
    rw [hnil]
    rfl

theorem buildSetLoop_eq_filter (fs : List GoField) :
    ∀ acc : List (String × Value),
      (∀ f ∈ fs, IncludeField f → ∀ p ∈ acc, p.1 ≠ entryName f) →
      ((fs.filter fun g => decide (IncludeField g)).map entryName).Nodup →
      buildSetLoop fs acc =
        acc ++ (fs.filter fun g => decide (IncludeField g)).map
          (fun g => (entryName g, g.value)) := by
  induction fs with
  | nil => intro acc _ _; simp [buildSetLoop]
  | cons f rest ih =>
    intro acc hfresh hnd
    rw [buildSetLoop_cons]
    by_cases hinc : IncludeField f
    · rw [if_pos hinc]
      have hins : mInsert acc (resolvedName f.name f.tag) f.value =
          acc ++ [(entryName f, f.value)] :=
        mInsert_of_fresh _ _ _ (hfresh f (List.mem_cons_self _ _) hinc)
      rw [hins]
      have hfilter : (List.filter (fun g => decide (IncludeField g)) (f :: rest)) =
          f :: rest.filter fun g => decide (IncludeField g) := by
        simp [List.filter_cons, hinc]
      rw [hfilter] at hnd ⊢
      rw [List.map_cons] at hnd
      have hpair := List.nodup_cons.mp hnd
      rw [ih (acc ++ [(entryName f, f.value)]) ?_ ?_]
      · simp [List.append_assoc]
      · intro g hg hgi p hp
        rcases List.mem_append.mp hp with hp | hp
        · exact hfresh g (List.mem_cons_of_mem _ hg) hgi p hp
        · have hp1 : p = (entryName f, f.value) := by simpa using hp
          subst hp1
          intro heq
          have heq2 : entryName f = entryName g := heq
          exact hpair.1 (heq2 ▸ List.mem_map_of_mem entryName
            (List.mem_filter.mpr ⟨hg, decide_eq_true hgi⟩))
      · exact hpair.2
    · rw [if_neg hinc]
      have hfilter : (List.filter (fun g => decide (IncludeField g)) (f :: rest)) =
          rest.filter fun g => decide (IncludeField g) := by
        simp [List.filter_cons, hinc]
      rw [hfilter] at hnd ⊢
      exact ih acc (fun g hg => hfresh g (List.mem_cons_of_mem _ hg)) hnd

theorem buildUpdateSet_shape_aux (data : Option Value) :
    BuildUpdateSet data = [] ∨
      ∃ s, s ≠ [] ∧ BuildUpdateSet data = [("$set", Value.vDoc s)] := by
  rcases hd : derefValue data with _ | v
  · left; unfold BuildUpdateSet; rw [hd]
  · cases v
    case vStruct fs =>
      by_cases h : (buildSetLoop fs []).length > 0
      · right
        refine ⟨buildSetLoop fs [], ?_, ?_⟩
        · intro hnil; rw [hnil] at h; simp at h
        · unfold BuildUpdateSet; rw [hd]
          show (if (buildSetLoop fs []).length > 0 then
              [("$set", Value.vDoc (buildSetLoop fs []))] else []) =
            [("$set", Value.vDoc (buildSetLoop fs []))]
          rw [if_pos h]
      · left
        unfold BuildUpdateSet; rw [hd]
        show (if (buildSetLoop fs []).length > 0 then
            [("$set", Value.vDoc (buildSetLoop fs []))] else []) = []
        rw [if_neg h]
    all_goals (left; unfold BuildUpdateSet; rw [hd])

theorem updateOnePrep_spec (update : List (String × Value)) (now : Nat)
    (h : mLookup update "$set" = none ∨
      ∃ s, mLookup update "$set" = some (Value.vDoc s)) :
    ∃ u s, UpdateOnePrep update now = some u ∧
      mLookup u "$set" = some (Value.vDoc s) ∧
      mLookup s "updated_at" = some (Value.vTime now) ∧ s ≠ [] := by
  rcases h with h | ⟨s0, h⟩
  · refine ⟨mInsert (mInsert update "$set" (Value.vDoc [])) "$set"
        (Value.vDoc [("updated_at", Value.vTime now)]),
      [("updated_at", Value.vTime now)], ?_, ?_, ?_, ?_⟩
    · simp only [UpdateOnePrep, h]
      rw [mLookup_mInsert]
      simp [mInsert]
    · rw [mLookup_mInsert]
      simp
    · simp [mLookup]
    · simp
  · refine ⟨mInsert update "$set"
        (Value.vDoc (mInsert s0 "updated_at" (Value.vTime now))),
      mInsert s0 "updated_at" (Value.vTime now), ?_, ?_, ?_, ?_⟩
    · simp only [UpdateOnePrep, h]
    · rw [mLookup_mInsert]
      simp
    · rw [mLookup_mInsert]
      simp
    · exact mInsert_ne_nil _ _ _

/-! ### Claim theorems -/

/-- C1 (counterexample): the claimed equivalence — an exported field
contributes an entry iff its tag is non-empty and not `-` and it is not
omitempty-with-zero-value — fails on a struct with a single exported field
tagged `_id` holding the non-zero value `"x"`: conditions (a) and (b) hold,
yet the output contains no entry for that field. -/
theorem buildUpdateSet_included_iff_counterexample :
    ¬(((entryName (GoField.mk "ID" true "_id" (Value.vStr "x")),
          Value.vStr "x") ∈
        msetOf (BuildUpdateSet (some (.vStruct
          [GoField.mk "ID" true "_id" (Value.vStr "x")])))) ↔
      (("_id" : String) ≠ "" ∧ ("_id" : String) ≠ "-") ∧
        ¬(HasOmitempty "_id" ∧ isZero (Value.vStr "x") = true)) := by
  intro h
  have hmem := h.mpr ⟨⟨by decide, by decide⟩, by decide⟩
  have hempty : msetOf (BuildUpdateSet (some (.vStruct
      [GoField.mk "ID" true "_id" (Value.vStr "x")]))) = [] := rfl
  rw [hempty] at hmem
  exact List.not_mem_nil _ hmem

/-- C1 (amended): for a struct input, passed directly or behind one pointer,
whose fields have pairwise distinct resolved external names, an exported
field contributes the entry `resolved name ↦ current value` to the `$set`
output if and only if (a) its tag is neither absent nor exactly `-`,
(b) it is not marked omitempty with a zero value, and (c) its resolved
external name is not `_id`. -/
theorem buildUpdateSet_included_iff (fs : List GoField) (data : Option Value)
    (hdata : data = some (.vStruct fs) ∨
      data = some (.vPtr (some (.vStruct fs))))
    (hnd : (fs.map entryName).Nodup)
    (f : GoField) (hf : f ∈ fs) (hexp : f.exported = true) :
    (entryName f, f.value) ∈ msetOf (BuildUpdateSet data) ↔
      (f.tag ≠ "" ∧ f.tag ≠ "-") ∧
        ¬(HasOmitempty f.tag ∧ isZero f.value = true) ∧
        entryName f ≠ "_id" := by
  have hd : derefValue data = some (.vStruct fs) := by
    rcases hdata with h | h <;> subst h <;> rfl
  rw [msetOf_buildUpdateSet data fs hd]
  have hndf : ((fs.filter fun g => decide (IncludeField g)).map entryName).Nodup :=
    hnd.sublist (List.Sublist.map _ (List.filter_sublist _))
  rw [buildSetLoop_eq_filter fs [] (by simp) hndf]
  rw [List.nil_append]
  constructor
  · intro hmem
    rcases List.mem_map.mp hmem with ⟨g, hgf, hge⟩
    rcases List.mem_filter.mp hgf with ⟨hgfs, hgi⟩
    have hgi2 : IncludeField g := of_decide_eq_true hgi
    have hname : entryName g = entryName f := congrArg Prod.fst hge
    have hgf2 : g = f := List.inj_on_of_nodup_map hnd hgfs hf hname
    subst hgf2
    have hc := (includeField_iff g).mp hgi2
    exact ⟨⟨hc.2.1, hc.2.2.1⟩, hc.2.2.2.1, hc.2.2.2.2⟩
  · intro hcond
    have hinc : IncludeField f := (includeField_iff f).mpr
      ⟨hexp, hcond.1.1, hcond.1.2, hcond.2.1, hcond.2.2⟩
    exact List.mem_map.mpr
      ⟨f, List.mem_filter.mpr ⟨hf, decide_eq_true hinc⟩, rfl⟩

/-- C1 (witness): in the sample record, the `username` field meets all
three conditions and its entry is present in the output. -/
theorem buildUpdateSet_included_iff_witness :
    (entryName (GoField.mk "Name" true "username" (Value.vStr "alice")),
        Value.vStr "alice") ∈
      msetOf (BuildUpdateSet (some (.vStruct (sampleRecord "")))) :=
  (buildUpdateSet_included_iff (sampleRecord "") _ (Or.inl rfl) (by decide)
      (GoField.mk "Name" true "username" (Value.vStr "alice"))
      (List.mem_cons_of_mem _ (List.mem_cons_self _ _)) rfl).mpr
    ⟨⟨by decide, by decide⟩, by decide, by decide⟩

/-- C2: for every input, the `$set` sub-document of the output of
`BuildUpdateSet` never contains the key `_id`. -/
theorem buildUpdateSet_never_sets_id (data : Option Value) :
    mLookup (msetOf (BuildUpdateSet data)) "_id" = none := by
  rcases hd : derefValue data with _ | v
  · have h : BuildUpdateSet data = [] := by unfold BuildUpdateSet; rw [hd]
    rw [h]; rfl
  · cases v
    case vStruct fs =>
      rw [msetOf_buildUpdateSet data fs hd]
      exact mLookup_id_buildSetLoop fs [] rfl
    all_goals
      (have h : BuildUpdateSet data = [] := by unfold BuildUpdateSet; rw [hd]
       rw [h]; rfl)

/-- C3: the result of `BuildUpdateSet` contains at most the single key
`$set`: it is either the empty mapping, or exactly `{"$set": s}` with a
non-empty field set `s`. -/
theorem buildUpdateSet_at_most_set_key (data : Option Value) :
    BuildUpdateSet data = [] ∨
      ∃ s, s ≠ [] ∧ BuildUpdateSet data = [("$set", Value.vDoc s)] :=
  buildUpdateSet_shape_aux data

/-- C4: `BuildUpdateSet` is total — on the untyped nil interface and on a
nil pointer it returns the empty mapping, and on every input it terminates
normally with some result. -/
theorem buildUpdateSet_total :
    BuildUpdateSet none = [] ∧ BuildUpdateSet (some (.vPtr none)) = [] ∧
      ∀ data : Option Value, ∃ r, BuildUpdateSet data = r :=
  ⟨rfl, rfl, fun data => ⟨BuildUpdateSet data, rfl⟩⟩

/-- C5: every input that, after the single dereference, is not a struct
yields the empty mapping. -/
theorem buildUpdateSet_nonstruct_empty (data : Option Value) (v : Value)
    (hd : derefValue data = some v) (hv : ∀ fs, v ≠ Value.vStruct fs) :
    BuildUpdateSet data = [] := by
  unfold BuildUpdateSet
  rw [hd]
  cases v
  case vStruct fs => exact absurd rfl (hv fs)
  all_goals rfl

/-- C5 (witness): a plain number input yields the empty mapping. -/
theorem buildUpdateSet_nonstruct_empty_witness :
    BuildUpdateSet (some (Value.vInt 5)) = [] :=
  buildUpdateSet_nonstruct_empty (some (Value.vInt 5)) (Value.vInt 5) rfl
    (fun _ h => nomatch h)

/-- C6: a field whose tag has an empty primary name resolves to the
lower-cased field identifier, and a field whose whole tag is exactly `-`
is skipped by the field loop regardless of its value. -/
theorem name_resolution_and_dash_skip :
    (∀ goName tag : String, primaryName tag = "" →
        resolvedName goName tag = lowerName goName) ∧
      ∀ (f : GoField) (rest : List GoField) (acc : List (String × Value)),
        f.tag = "-" → buildSetLoop (f :: rest) acc = buildSetLoop rest acc := by
  constructor
  · intro goName tag h
    simp [resolvedName, h]
  · intro f rest acc h
    rcases f with ⟨n, e, t, v⟩
    simp only [GoField.tag] at h
    subst h
    cases e <;> simp [buildSetLoop, GoField.exported, GoField.tag]

/-- C6 (witness): the tag `,omitempty` has an empty primary name and the
field resolves to the lower-cased identifier; a field tagged `-` is
skipped. -/
theorem name_resolution_and_dash_skip_witness :
    resolvedName "Bio" ",omitempty" = lowerName "Bio" ∧
      buildSetLoop [GoField.mk "P" true "-" (Value.vStr "x")] [] =
        buildSetLoop [] [] :=
  ⟨name_resolution_and_dash_skip.1 "Bio" ",omitempty" rfl,
    name_resolution_and_dash_skip.2
      (GoField.mk "P" true "-" (Value.vStr "x")) [] [] rfl⟩

/-- C7: the spec's concrete scenario — with `bio = ""` the result is
`{"$set": {"username": "alice"}}`, and with `bio = "hello"` it is
`{"$set": {"username": "alice", "profile.bio": "hello"}}`. -/
theorem sample_scenario_updates :
    BuildUpdateSet (some (.vStruct (sampleRecord ""))) =
        [("$set", Value.vDoc [("username", Value.vStr "alice")])] ∧
      BuildUpdateSet (some (.vStruct (sampleRecord "hello"))) =
        [("$set", Value.vDoc [("username", Value.vStr "alice"),
            ("profile.bio", Value.vStr "hello")])] :=
  ⟨rfl, rfl⟩

/-- C8: `BuildUpdateSet` is deterministic — two invocations on the same
unmodified input produce structurally equal outputs.  (The embedding is a
pure function, as the source performs no mutation and no I/O.) -/
theorem buildUpdateSet_deterministic (d1 d2 : Option Value) (h : d1 = d2) :
    BuildUpdateSet d1 = BuildUpdateSet d2 :=
  congrArg BuildUpdateSet h

/-- C8 (witness): two invocations on the sample record agree. -/
theorem buildUpdateSet_deterministic_witness :
    BuildUpdateSet (some (.vStruct (sampleRecord "hello"))) =
      BuildUpdateSet (some (.vStruct (sampleRecord "hello"))) :=
  buildUpdateSet_deterministic _ _ rfl

/-- C9: a `User` value's `,inline`-tagged embedded `BaseDocument` is not
expanded into its constituent fields: it is emitted as the single entry
`basedocument ↦ the whole embedded struct` (even when that struct is
zero), alongside the other user fields. -/
theorem user_inline_single_entry (id createdAt updatedAt : Value)
    (username email password status firstName lastName avatar bio : String) :
    BuildUpdateSet (some (.vStruct (mkUser (mkBaseDocument id createdAt updatedAt)
        username email password status
        (mkProfile firstName lastName avatar bio)))) =
      [("$set", Value.vDoc
        [ ("basedocument", Value.vStruct (mkBaseDocument id createdAt updatedAt))
        , ("username", Value.vStr username)
        , ("email", Value.vStr email)
        , ("password", Value.vStr password)
        , ("status", Value.vStr status)
        , ("profile", Value.vStruct (mkProfile firstName lastName avatar bio))
        ])] :=
  rfl

/-- C10: the `updated_at` prologues of `UpdateOne` and `UpdateMany` always
store `updated_at ↦ now` inside the `$set` sub-document, creating the
`$set` key when it is missing; in particular an empty update produced by
`BuildUpdateSet` is turned into a non-empty `$set` update. -/
theorem update_ops_always_set_updated_at :
    (∀ (update : List (String × Value)) (now : Nat),
      (mLookup update "$set" = none ∨
        ∃ s, mLookup update "$set" = some (Value.vDoc s)) →
      ∃ u s, UpdateOnePrep update now = some u ∧
        mLookup u "$set" = some (Value.vDoc s) ∧
        mLookup s "updated_at" = some (Value.vTime now) ∧ s ≠ []) ∧
    (∀ (update : List (String × Value)) (now : Nat),
      (mLookup update "$set" = none ∨
        ∃ s, mLookup update "$set" = some (Value.vDoc s)) →
      ∃ u s, UpdateManyPrep update now = some u ∧
        mLookup u "$set" = some (Value.vDoc s) ∧
        mLookup s "updated_at" = some (Value.vTime now) ∧ s ≠ []) ∧
    ∀ (data : Option Value) (now : Nat),
      ∃ u s, UpdateOnePrep (BuildUpdateSet data) now = some u ∧
        mLookup u "$set" = some (Value.vDoc s) ∧
        mLookup s "updated_at" = some (Value.vTime now) ∧ s ≠ [] := by
  have hmany : UpdateManyPrep = UpdateOnePrep := rfl
  refine ⟨updateOnePrep_spec, ?_, ?_⟩
  · rw [hmany]; exact updateOnePrep_spec
  · intro data now
    apply updateOnePrep_spec
    rcases buildUpdateSet_shape_aux data with h | ⟨s, _, h⟩
    · left; rw [h]; rfl
    · right; exact ⟨s, by rw [h]; simp [mLookup]⟩

/-- C10 (witness): the empty update (as produced by `BuildUpdateSet` on a
non-qualifying input) is turned into `{"$set": {"updated_at": now}}`. -/
theorem update_ops_always_set_updated_at_witness :
    ∃ u s, UpdateOnePrep [] 7 = some u ∧
      mLookup u "$set" = some (Value.vDoc s) ∧
      mLookup s "updated_at" = some (Value.vTime 7) ∧ s ≠ [] :=
  update_ops_always_set_updated_at.1 [] 7 (Or.inl rfl)

end MongoL
